/-
Verification of the RAG-app pipeline (src/main.py, src/data_loader.py).

Shallow embedding conventions:
* floats become rationals (ℚ);
* a call to an external API that can raise becomes a function into `Except Err _`;
* a Python `dict.get(key)` that can return `None` becomes an `Option` field;
* the Qdrant vector store, the sentence chunker and the inngest step
  executor are not part of the sources under `src/`; they are modelled from
  the specification and marked `Modelled from the spec:` in their doc
  comments.
-/
import Mathlib

/-- Errors surfaced by external calls in the embedding: an exception raised by
a boto3 `invoke_model` call, or a Python `IndexError` from indexing `[0]` into
an empty list. -/
inductive Err where
  | botoError (msg : String)
  | indexError
deriving DecidableEq

/-- Parsed body of an embedding-model response.  `data_loader.embed_texts`
reads `response_body.get("embedding")`, which yields `None` when the key is
absent, hence the `Option`. -/
structure EmbedResponse where
  embedding : Option (List ℚ)
deriving DecidableEq

/-- Embedding of `data_loader.embed_texts`: loop over the texts in order, call
the model once per text (`f`), parse each response and append
`response_body.get("embedding")` to the accumulator.  An exception raised by a
call propagates and aborts the whole loop, exactly as in Python. -/
def embed_texts (f : String → Except Err EmbedResponse) :
    List String → Except Err (List (Option (List ℚ)))
  | [] => .ok []
  | t :: ts =>
    match f t with
    | .error e => .error e
    | .ok r =>
      match embed_texts f ts with
      | .error e => .error e
      | .ok rest => .ok (r.embedding :: rest)

/-- Number of calls `embed_texts` makes to the external model: one per text
processed, stopping after the first call that raises. -/
def embedCallCount (f : String → Except Err EmbedResponse) : List String → Nat
  | [] => 0
  | t :: ts =>
    match f t with
    | .error _ => 1
    | .ok _ => 1 + embedCallCount f ts

/-- Payload stored alongside a vector: `{"source": source_id, "text": chunks[i]}`
(src/main.py line 40). -/
structure Payload where
  source : String
  text : String
deriving DecidableEq

instance : Inhabited Payload := ⟨⟨"", ""⟩⟩

/-- Modelled from the spec: the unit persisted in the vector store
(`custom_types` / `vector_db.QdrantStorage` are not under `src/`).  An
`IndexRecord` is `{id, vector, payload}`; the vector is `Option`-valued
because `embed_texts` can produce `None` entries, which the pipeline passes
through unchanged. -/
structure IndexRecord where
  id : String
  vector : Option (List ℚ)
  payload : Payload
deriving DecidableEq

/-- The ids currently present in the store, in storage order. -/
def storeIds (s : List IndexRecord) : List String :=
  s.map (fun r => r.id)

/-- Modelled from the spec: upsert of a single record into the store.
Upserting an existing `id` overwrites that record in place (last-write-wins);
a new `id` is appended. -/
def upsertOne (s : List IndexRecord) (r : IndexRecord) : List IndexRecord :=
  if s.any (fun x => x.id == r.id) then
    s.map (fun x => if x.id == r.id then r else x)
  else
    s ++ [r]

/-- Modelled from the spec: `QdrantStorage.upsert` applies the records in
order. -/
def upsertRecords (s : List IndexRecord) (rs : List IndexRecord) : List IndexRecord :=
  rs.foldl upsertOne s

/-- Zip the parallel `ids`, `vecs`, `payloads` lists produced by
`rag_ingest_pdf._upsert` into the records handed to `QdrantStorage.upsert`. -/
def zipRecords : List String → List (Option (List ℚ)) → List Payload → List IndexRecord
  | i :: is, v :: vs, p :: ps => ⟨i, v, p⟩ :: zipRecords is vs ps
  | _, _, _ => []

/-- The ids computed in `rag_ingest_pdf._upsert` (src/main.py line 39):
`[str(uuid.uuid5(uuid.NAMESPACE_URL, f"{source_id}:{i}")) for i in range(len(chunks))]`.
The namespace hash `uuid5` is abstracted as the function `u`. -/
def mkIds (u : String → String) (source_id : String) (n : Nat) : List String :=
  (List.range n).map (fun i => u (source_id ++ ":" ++ toString i))

/-- The payloads computed in `rag_ingest_pdf._upsert` (src/main.py line 40):
one `{"source": source_id, "text": chunks[i]}` per chunk, in chunk order. -/
def mkPayloads (source_id : String) (chunks : List String) : List Payload :=
  chunks.map (fun c => ⟨source_id, c⟩)

/-- `RAGChunkAndSrc` from `custom_types` as used by src/main.py. -/
structure RAGChunkAndSrc where
  chunks : List String
  source_id : String
deriving DecidableEq

/-- `RAGUpsertResult` from `custom_types` as used by src/main.py. -/
structure RAGUpsertResult where
  ingested : Nat
deriving DecidableEq

/-- `rag_ingest_pdf._upsert` (src/main.py lines 35-42): embed the chunks,
derive the deterministic ids and payloads, upsert into the store, and report
the number of chunks ingested.  Returns the updated store next to the result. -/
def ragIngestUpsert (u : String → String) (f : String → Except Err EmbedResponse)
    (store : List IndexRecord) (x : RAGChunkAndSrc) :
    Except Err (List IndexRecord × RAGUpsertResult) :=
  match embed_texts f x.chunks with
  | .error e => .error e
  | .ok vecs =>
    let ids := mkIds u x.source_id x.chunks.length
    let payloads := mkPayloads x.source_id x.chunks
    .ok (upsertRecords store (zipRecords ids vecs payloads), ⟨x.chunks.length⟩)

/-- Ranking relation used by the search model: a record/score pair comes
before another when its score is at least as large (descending by score). -/
def byScore (a b : IndexRecord × ℚ) : Prop := b.2 ≤ a.2

instance : DecidableRel byScore := fun a b => inferInstanceAs (Decidable (b.2 ≤ a.2))

instance : IsTotal (IndexRecord × ℚ) byScore :=
  ⟨fun a b => (le_total b.2 a.2).imp id id⟩

instance : IsTrans (IndexRecord × ℚ) byScore :=
  ⟨fun _ _ _ hab hbc => le_trans hbc hab⟩

/-- Modelled from the spec: the ranked candidate list of
`QdrantStorage.search` (`vector_db` is not under `src/`).  Every stored
record is scored against the query vector by the store's similarity metric
`m`, ranked descending by score, and the first `topK` are kept. -/
def searchRanked (m : Option (List ℚ) → Option (List ℚ) → ℚ)
    (store : List IndexRecord) (q : Option (List ℚ)) (topK : Nat) :
    List (IndexRecord × ℚ) :=
  ((store.map (fun r => (r, m q r.vector))).insertionSort byScore).take topK

/-- Shape of the value `QdrantStorage.search` returns to src/main.py line 56:
a dict carrying the retrieved `contexts` and `sources` (index-aligned), with
the ranking `scores` alongside. -/
structure SearchFound where
  contexts : List String
  sources : List String
  scores : List ℚ
deriving DecidableEq

/-- Modelled from the spec: `QdrantStorage.search` projects the ranked
records to their payload texts and sources, order-aligned. -/
def QdrantStorage.search (m : Option (List ℚ) → Option (List ℚ) → ℚ)
    (store : List IndexRecord) (q : Option (List ℚ)) (topK : Nat) :
    SearchFound :=
  let ranked := searchRanked m store q topK
  ⟨ranked.map (fun x => x.1.payload.text),
   ranked.map (fun x => x.1.payload.source),
   ranked.map (fun x => x.2)⟩

/-- One item of the `content` list of a Claude Bedrock response; `.get("text", "")`
in src/main.py line 95 means the `text` key may be absent. -/
structure ContentItem where
  text : Option String
deriving DecidableEq

/-- Parsed body of the generation-model response read in src/main.py line 95:
`res.get("content", [{}])` means the `content` key may be absent. -/
structure GenResponse where
  content : Option (List ContentItem)
deriving DecidableEq

/-- Python's `str.strip()`: drop leading and trailing whitespace. -/
def stripStr (s : String) : String :=
  ⟨((s.data.dropWhile Char.isWhitespace).reverse.dropWhile Char.isWhitespace).reverse⟩

/-- The answer extraction of src/main.py line 95:
`res.get("content", [{}])[0].get("text", "").strip()`.  Indexing `[0]` into a
present-but-empty `content` list raises `IndexError`; otherwise the `text`
field defaults to `""` and is stripped. -/
def extractAnswer (res : GenResponse) : Except Err String :=
  match res.content.getD [⟨none⟩] with
  | [] => .error .indexError
  | item :: _ => .ok (stripStr (item.text.getD ""))

/-- Result dict returned by `rag_query_pdf_ai` (src/main.py line 97). -/
structure RAGQueryResult where
  answer : String
  sources : List String
  num_contexts : Nat
deriving DecidableEq

/-- `rag_query_pdf_ai` (src/main.py lines 52-97): embed the question (a batch
of one, then `[0]`), search the store with `top_k`, build the context block by
joining `"- " + c` with blank lines, invoke the generation model on it, and
extract the answer.  `f` is the embedding call, `m` the store's similarity
metric and `llm` the generation call. -/
def rag_query_pdf_ai (f : String → Except Err EmbedResponse)
    (m : Option (List ℚ) → Option (List ℚ) → ℚ)
    (llm : String → String → Except Err GenResponse)
    (store : List IndexRecord) (question : String) (top_k : Nat) :
    Except Err RAGQueryResult :=
  match embed_texts f [question] with
  | .error e => .error e
  | .ok vecs =>
    match vecs with
    | [] => .error .indexError
    | query_vec :: _ =>
      let found := QdrantStorage.search m store query_vec top_k
      let context_block :=
        String.intercalate "\n\n" (found.contexts.map (fun c => "- " ++ c))
      match llm context_block question with
      | .error e => .error e
      | .ok res =>
        match extractAnswer res with
        | .error e => .error e
        | .ok answer => .ok ⟨answer, found.sources, found.contexts.length⟩

/-- Modelled from the spec: status of a Step Record; `succeeded` carries the
cached, immutable result. -/
inductive StepStatus (V : Type) where
  | pending
  | succeeded (result : V)
  | failed
deriving DecidableEq

/-- Modelled from the spec: the Step Record persisted by the Step Executor
(the executor is the inngest library, not under `src/`), keyed within one run
by step name. -/
structure StepRecord (V : Type) where
  status : StepStatus V
  attempt : Nat
deriving DecidableEq

/-- Write a step's record into the per-run database, replacing an existing
entry for the same step name or adding a fresh one. -/
def setStep {V : Type} (db : List (String × StepRecord V)) (name : String)
    (rec : StepRecord V) : List (String × StepRecord V) :=
  if db.any (fun p => p.1 == name) then
    db.map (fun p => if p.1 == name then (name, rec) else p)
  else
    (name, rec) :: db

/-- Modelled from the spec: `ctx.step.run` of the Step Executor.  Look up the
record for the step name; if it already succeeded, return the cached result
without invoking `fn`; otherwise invoke `fn`, persist `succeeded` with its
value or `failed` with the attempt counter bumped, and propagate the outcome.
The third component counts how many times `fn` was invoked. -/
def runStep {V E : Type} (db : List (String × StepRecord V)) (name : String)
    (fn : Unit → Except E V) :
    Except E V × List (String × StepRecord V) × Nat :=
  match db.lookup name with
  | some rec =>
    match rec.status with
    | .succeeded r => (.ok r, db, 0)
    | _ =>
      match fn () with
      | .ok v => (.ok v, setStep db name ⟨.succeeded v, rec.attempt⟩, 1)
      | .error e => (.error e, setStep db name ⟨.failed, rec.attempt + 1⟩, 1)
  | none =>
    match fn () with
    | .ok v => (.ok v, setStep db name ⟨.succeeded v, 0⟩, 1)
    | .error e => (.error e, setStep db name ⟨.failed, 1⟩, 1)

/-- A two-step pipeline run under the Step Executor, as both pipeline
functions of src/main.py are structured: the first step's output feeds the
second.  Returns the final outcome, the run database, and the invocation
counts of the two step bodies. -/
def runTwoSteps {V E : Type} (db : List (String × StepRecord V))
    (n1 n2 : String) (fn1 : Unit → Except E V) (fn2 : V → Unit → Except E V) :
    Except E V × List (String × StepRecord V) × Nat × Nat :=
  match runStep db n1 fn1 with
  | (.error e, db1, c1) => (.error e, db1, c1, 0)
  | (.ok v1, db1, c1) =>
    match runStep db1 n2 (fn2 v1) with
    | (r2, db2, c2) => (r2, db2, c1, c2)

/-- Modelled from the spec: the chunker (`SentenceSplitter` of llama_index is
not under `src/`).  Hard cuts at `size` items with the trailing `overlap`-sized
slice of each chunk copied into the start of the next: a text no longer than
`size` is a single chunk; otherwise the first `size` items form a chunk and
chunking restarts `size - overlap` items in. -/
def chunkText (size overlap : Nat) (t : List Char) : List (List Char) :=
  if h1 : size ≤ overlap then [t]
  else if h2 : t.length ≤ size then [t]
  else t.take size :: chunkText size overlap (t.drop (size - overlap))
termination_by t.length
decreasing_by
  simp only [List.length_drop]
  omega

/-- The round-trip reassembly named by the spec: keep the first chunk whole
and trim the leading `overlap`-sized slice from every later chunk, then
concatenate. -/
def reconstructChunks (overlap : Nat) : List (List Char) → List Char
  | [] => []
  | c :: cs => c ++ (cs.map (List.drop overlap)).flatten

/-- An embedding call that always succeeds with vector `[1]`. -/
def exEmbedOk : String → Except Err EmbedResponse := fun _ => .ok ⟨some [1]⟩

/-- An embedding call whose response for the text `"b"` parses but carries no
`"embedding"` key. -/
def exEmbedMixed : String → Except Err EmbedResponse := fun t =>
  if t = "b" then .ok ⟨none⟩ else .ok ⟨some [1]⟩

/-- An embedding call that always raises. -/
def exEmbedErr : String → Except Err EmbedResponse := fun _ => .error (.botoError "boom")

/-- Run database of a run whose first step already succeeded with result 7. -/
def exDB : List (String × StepRecord Nat) :=
  [("load-and-chunk", ⟨.succeeded 7, 1⟩)]

/-- A similarity metric giving every record the same score. -/
def exMetric : Option (List ℚ) → Option (List ℚ) → ℚ := fun _ _ => 0

/-- A two-record store. -/
def exStore : List IndexRecord :=
  [⟨"i1", some [1], ⟨"s1", "t1"⟩⟩, ⟨"i2", some [2], ⟨"s2", "t2"⟩⟩]

/-- A generation call whose response parses but carries no `content` field. -/
def exLLMEmpty : String → String → Except Err GenResponse := fun _ _ => .ok ⟨none⟩

/-- A generation call answering `"hi"`. -/
def exLLMHi : String → String → Except Err GenResponse :=
  fun _ _ => .ok ⟨some [⟨some "hi"⟩]⟩

/-- A stand-in namespace hash for concrete witnesses: the identity string
map. -/
def idHash : String → String := fun s => s

/-- The record the witness ingest stores. -/
def exRecord : IndexRecord := ⟨"s:0", some [1], ⟨"s", "c"⟩⟩

lemma embed_texts_nil (f : String → Except Err EmbedResponse) :
    embed_texts f [] = .ok [] := rfl

lemma embed_texts_ok_length (f : String → Except Err EmbedResponse) :
    ∀ (ts : List String) (out : List (Option (List ℚ))),
      embed_texts f ts = .ok out → out.length = ts.length := by
  intro ts
  induction ts with
  | nil => intro out h; simp [embed_texts] at h; simp [← h]
  | cons t ts ih =>
    intro out h
    simp only [embed_texts] at h
    cases hf : f t with
    | error e => rw [hf] at h; exact absurd h (by simp)
    | ok r =>
      rw [hf] at h
      cases hrest : embed_texts f ts with
      | error e => rw [hrest] at h; exact absurd h (by simp)
      | ok rest =>
        rw [hrest] at h
        have hout : out = r.embedding :: rest := by
          cases h; rfl
        subst hout
        simp [ih rest hrest]

lemma embed_texts_ok_get (f : String → Except Err EmbedResponse) :
    ∀ (ts : List String) (out : List (Option (List ℚ))),
      embed_texts f ts = .ok out →
      ∀ i (hi : i < ts.length) (ho : i < out.length),
        ∃ r, f ts[i] = .ok r ∧ out[i] = r.embedding := by
  intro ts
  induction ts with
  | nil => intro out _ i hi; exact absurd hi (by simp)
  | cons t ts ih =>
    intro out h i hi ho
    simp only [embed_texts] at h
    cases hf : f t with
    | error e => rw [hf] at h; exact absurd h (by simp)
    | ok r =>
      rw [hf] at h
      cases hrest : embed_texts f ts with
      | error e => rw [hrest] at h; exact absurd h (by simp)
      | ok rest =>
        rw [hrest] at h
        have hout : out = r.embedding :: rest := by cases h; rfl
        subst hout
        cases i with
        | zero => exact ⟨r, hf, rfl⟩
        | succ j =>
          have hj : j < ts.length := by simpa using hi
          have hj' : j < rest.length := by simpa using ho
          simpa using ih rest hrest j hj hj'

lemma storeIds_upsertOne (s : List IndexRecord) (r : IndexRecord) :
    storeIds (upsertOne s r) =
      if r.id ∈ storeIds s then storeIds s else storeIds s ++ [r.id] := by
  unfold upsertOne storeIds
  by_cases h : r.id ∈ s.map (fun x => x.id)
  · have hany : s.any (fun x => x.id == r.id) = true := by
      simp only [List.any_eq_true, beq_iff_eq]
      rcases List.mem_map.mp h with ⟨x, hx, hid⟩
      exact ⟨x, hx, hid⟩
    simp only [hany, if_true, h, List.map_map]
    apply List.map_congr_left
    intro x _
    by_cases hx : x.id == r.id
    · simp only [Function.comp_apply, hx, if_true]
      have : x.id = r.id := by simpa using hx
      simp [this]
    · have hx' : ¬ x.id = r.id := by simpa using hx
      simp [Function.comp_apply, hx']
  · have hany : s.any (fun x => x.id == r.id) = false := by
      simp only [List.any_eq_false, beq_iff_eq]
      intro x hx hid
      exact h (List.mem_map.mpr ⟨x, hx, hid⟩)
    simp [hany, h]

lemma mem_storeIds_upsertOne (s : List IndexRecord) (r : IndexRecord)
    (a : String) (ha : a ∈ storeIds s) : a ∈ storeIds (upsertOne s r) := by
  rw [storeIds_upsertOne]
  by_cases h : r.id ∈ storeIds s
  · simpa [h] using ha
  · simp [h, ha]

lemma self_mem_storeIds_upsertOne (s : List IndexRecord) (r : IndexRecord) :
    r.id ∈ storeIds (upsertOne s r) := by
  rw [storeIds_upsertOne]
  by_cases h : r.id ∈ storeIds s <;> simp [h]

lemma mem_storeIds_upsertRecords (rs : List IndexRecord) :
    ∀ (s : List IndexRecord) (a : String), a ∈ storeIds s →
      a ∈ storeIds (upsertRecords s rs) := by
  induction rs with
  | nil => intro s a ha; exact ha
  | cons r rs ih =>
    intro s a ha
    exact ih (upsertOne s r) a (mem_storeIds_upsertOne s r a ha)

lemma ids_mem_storeIds_upsertRecords (rs : List IndexRecord) :
    ∀ (s : List IndexRecord) (r : IndexRecord), r ∈ rs →
      r.id ∈ storeIds (upsertRecords s rs) := by
  induction rs with
  | nil => intro s r h; exact absurd h (by simp)
  | cons r0 rs ih =>
    intro s r h
    rcases List.mem_cons.mp h with h0 | hmem
    · subst h0
      exact mem_storeIds_upsertRecords rs (upsertOne s r) r.id
        (self_mem_storeIds_upsertOne s r)
    · exact ih (upsertOne s r0) r hmem

lemma storeIds_upsertRecords_of_present (rs : List IndexRecord) :
    ∀ (s : List IndexRecord), (∀ r ∈ rs, r.id ∈ storeIds s) →
      storeIds (upsertRecords s rs) = storeIds s := by
  induction rs with
  | nil => intro s _; rfl
  | cons r rs ih =>
    intro s h
    have hr : r.id ∈ storeIds s := h r (by simp)
    have h1 : storeIds (upsertOne s r) = storeIds s := by
      rw [storeIds_upsertOne, if_pos hr]
    have h2 : ∀ r' ∈ rs, r'.id ∈ storeIds (upsertOne s r) := by
      intro r' hr'
      rw [h1]
      exact h r' (by simp [hr'])
    calc storeIds (upsertRecords (upsertOne s r) rs)
        = storeIds (upsertOne s r) := ih (upsertOne s r) h2
      _ = storeIds s := h1

lemma zipRecords_map_id :
    ∀ (ids : List String) (vecs : List (Option (List ℚ))) (ps : List Payload),
      ids.length = vecs.length → ids.length = ps.length →
      (zipRecords ids vecs ps).map (fun r => r.id) = ids := by
  intro ids
  induction ids with
  | nil => intro vecs ps _ _; simp [zipRecords]
  | cons i is ih =>
    intro vecs ps hv hp
    cases vecs with
    | nil => exact absurd hv (by simp)
    | cons v vs =>
      cases ps with
      | nil => exact absurd hp (by simp)
      | cons p ps =>
        simp only [zipRecords, List.map_cons]
        rw [ih vs ps (by simpa using hv) (by simpa using hp)]

lemma chunkText_flatten_drop (size overlap : Nat) (h : overlap < size) :
    ∀ (n : Nat) (t : List Char), t.length ≤ n →
      ((chunkText size overlap t).map (List.drop overlap)).flatten = t.drop overlap := by
  intro n
  induction n with
  | zero =>
    intro t ht
    have ht0 : t.length ≤ size := by omega
    rw [chunkText, dif_neg (by omega : ¬ size ≤ overlap), dif_pos ht0]
    simp
  | succ n ih =>
    intro t ht
    rw [chunkText, dif_neg (by omega : ¬ size ≤ overlap)]
    by_cases h2 : t.length ≤ size
    · rw [dif_pos h2]; simp
    · rw [dif_neg h2]
      simp only [List.map_cons, List.flatten_cons]
      rw [ih (t.drop (size - overlap)) (by simp only [List.length_drop]; omega)]
      rw [List.drop_drop]
      have hso : size - overlap + overlap = size := by omega
      rw [hso]
      conv_rhs => rw [← List.take_append_drop size t]
      rw [List.drop_append_eq_append_drop]
      have hlen : (List.take size t).length = size := by
        simp only [List.length_take]; omega
      rw [hlen]
      have hz : overlap - size = 0 := by omega
      rw [hz, List.drop_zero]

/-- C3: `embed_texts` returns one entry per input text, in input order: the
output has the same length as the input and the entry at position `i` is the
embedding field of the model response for the text at position `i`. -/
theorem embed_texts_length_order (f : String → Except Err EmbedResponse)
    (ts : List String) (out : List (Option (List ℚ)))
    (h : embed_texts f ts = .ok out) :
    out.length = ts.length ∧
    ∀ i (hi : i < ts.length) (ho : i < out.length),
      ∃ r, f ts[i] = .ok r ∧ out[i] = r.embedding :=
  ⟨embed_texts_ok_length f ts out h, embed_texts_ok_get f ts out h⟩

theorem embed_texts_length_order_witness :
    embed_texts exEmbedOk ["a", "b"] = .ok [some [1], some [1]] ∧
    (([some [1], some [1]] : List (Option (List ℚ))).length =
        (["a", "b"] : List String).length ∧
      ∀ i (hi : i < (["a", "b"] : List String).length)
        (ho : i < ([some [1], some [1]] : List (Option (List ℚ))).length),
        ∃ r, exEmbedOk (["a", "b"] : List String)[i] = .ok r ∧
          ([some [1], some [1]] : List (Option (List ℚ)))[i] = r.embedding) :=
  ⟨rfl, embed_texts_length_order exEmbedOk ["a", "b"] [some [1], some [1]] rfl⟩

/-- C4 counterexample: when the model response for the text at index 1 parses
but has no `"embedding"` field, `embed_texts` does NOT fail the batch — it
returns successfully with `none` silently appended at that position, so no
`EmbeddingFailure` carrying the failing index is ever produced. -/
theorem embed_missing_embedding_no_failure :
    embed_texts exEmbedMixed ["a", "b"] = .ok [some [1], none] ∧
      exEmbedMixed "b" = .ok ⟨none⟩ :=
  ⟨rfl, rfl⟩

/-- C4 amended: only an exception raised by the per-text model call fails the
batch; the first such exception aborts the loop and propagates verbatim,
carrying no index.  (A response that parses without an `"embedding"` field
does not fail the batch at all; `None` is appended at that text's position,
see the counterexample.) -/
theorem embed_first_error_propagates (f : String → Except Err EmbedResponse)
    (ts : List String) (i : Nat) (e : Err) (hi : i < ts.length)
    (herr : f ts[i] = .error e)
    (hok : ∀ j (hj : j < ts.length), j < i → ∃ r, f ts[j] = .ok r) :
    embed_texts f ts = .error e := by
  induction ts generalizing i with
  | nil => exact absurd hi (by simp)
  | cons t ts ih =>
    cases i with
    | zero =>
      simp only [List.getElem_cons_zero] at herr
      simp [embed_texts, herr]
    | succ k =>
      obtain ⟨r, hr⟩ := hok 0 (by simp) (by omega)
      simp only [List.getElem_cons_zero] at hr
      have hrec : embed_texts f ts = .error e := by
        apply ih k (by simpa using hi)
        · simpa using herr
        · intro j hj hjk
          have hok' := hok (j + 1) (by simpa using hj) (by omega)
          simpa using hok'
      simp [embed_texts, hr, hrec]

theorem embed_first_error_propagates_witness :
    (0 < (["a"] : List String).length ∧
      exEmbedErr (["a"] : List String)[0] = .error (.botoError "boom")) ∧
    embed_texts exEmbedErr ["a"] = .error (.botoError "boom") :=
  ⟨⟨by decide, rfl⟩,
    embed_first_error_propagates exEmbedErr ["a"] 0 (.botoError "boom")
      (by decide) rfl
      (fun j hj hjk => absurd hjk (by omega))⟩

/-- C10: on the empty input list `embed_texts` returns the empty list after
zero external model calls, and an ingest of a document yielding zero chunks
leaves the store untouched and reports `ingested = 0`. -/
theorem embed_empty_no_calls_ingest_zero (u : String → String)
    (f : String → Except Err EmbedResponse) (store : List IndexRecord)
    (sid : String) :
    embed_texts f [] = .ok [] ∧ embedCallCount f [] = 0 ∧
      ragIngestUpsert u f store ⟨[], sid⟩ = .ok (store, ⟨0⟩) :=
  ⟨rfl, rfl, rfl⟩

/-- C5: for all chunking parameters with `size > overlap ≥ 0`, concatenating
the chunks after trimming the leading `overlap`-sized slice from every chunk
other than the first reconstructs the original text. -/
theorem chunk_round_trip (size overlap : Nat) (h : overlap < size)
    (t : List Char) :
    reconstructChunks overlap (chunkText size overlap t) = t := by
  rw [chunkText, dif_neg (by omega : ¬ size ≤ overlap)]
  by_cases h2 : t.length ≤ size
  · rw [dif_pos h2]
    simp [reconstructChunks]
  · rw [dif_neg h2]
    show List.take size t ++
        ((chunkText size overlap (t.drop (size - overlap))).map
          (List.drop overlap)).flatten = t
    rw [chunkText_flatten_drop size overlap h (t.drop (size - overlap)).length _
      le_rfl]
    rw [List.drop_drop]
    have hso : size - overlap + overlap = size := by omega
    rw [hso]
    exact List.take_append_drop size t

theorem chunk_round_trip_witness :
    1 < 3 ∧ reconstructChunks 1 (chunkText 3 1 "abcdef".data) = "abcdef".data :=
  ⟨by decide, chunk_round_trip 3 1 (by decide) "abcdef".data⟩

/-- C2: a step whose record is already `succeeded` returns its cached result
and its function is not invoked again; hence re-running a two-step pipeline
whose first step already succeeded invokes the first step's function zero
times, whatever the second step does (in particular when it fails again). -/
theorem step_succeeded_returns_cache {V E : Type}
    (db : List (String × StepRecord V)) (name n2 : String)
    (fn : Unit → Except E V) (fn2 : V → Unit → Except E V) (r : V) (att : Nat)
    (h : db.lookup name = some ⟨.succeeded r, att⟩) :
    runStep db name fn = (.ok r, db, 0) ∧
      (runTwoSteps db name n2 fn fn2).2.2.1 = 0 := by
  have h1 : runStep db name fn = (.ok r, db, 0) := by
    rw [runStep, h]
  refine ⟨h1, ?_⟩
  rw [runTwoSteps, h1]

theorem step_succeeded_returns_cache_witness :
    exDB.lookup "load-and-chunk" = some ⟨.succeeded 7, 1⟩ ∧
    (runStep exDB "load-and-chunk" (fun _ => .error Err.indexError) =
        (.ok 7, exDB, 0) ∧
      (runTwoSteps exDB "load-and-chunk" "embed-and-upsert"
          (fun _ => .error Err.indexError)
          (fun _ _ => .error Err.indexError)).2.2.1 = 0) :=
  ⟨rfl, step_succeeded_returns_cache exDB "load-and-chunk" "embed-and-upsert"
    _ _ 7 1 rfl⟩

lemma searchRanked_length (m : Option (List ℚ) → Option (List ℚ) → ℚ)
    (store : List IndexRecord) (q : Option (List ℚ)) (topK : Nat) :
    (searchRanked m store q topK).length = min topK store.length := by
  simp [searchRanked, List.length_take, List.length_insertionSort]

lemma searchRanked_sorted (m : Option (List ℚ) → Option (List ℚ) → ℚ)
    (store : List IndexRecord) (q : Option (List ℚ)) (topK : Nat) :
    (searchRanked m store q topK).Pairwise byScore :=
  List.Pairwise.sublist (List.take_sublist _ _)
    (List.sorted_insertionSort byScore _)

/-- C6: the search result never exceeds `topK` entries, its scores are
non-increasing across the sequence, and with fewer than `topK` stored records
it returns exactly what exists. -/
theorem search_at_most_topk_sorted (m : Option (List ℚ) → Option (List ℚ) → ℚ)
    (store : List IndexRecord) (q : Option (List ℚ)) (topK : Nat)
    (h : 1 ≤ topK) :
    (QdrantStorage.search m store q topK).contexts.length ≤ topK ∧
    (QdrantStorage.search m store q topK).sources.length ≤ topK ∧
    (QdrantStorage.search m store q topK).scores.Sorted (· ≥ ·) ∧
    (store.length ≤ topK →
      (QdrantStorage.search m store q topK).contexts.length = store.length) := by
  have hlen := searchRanked_length m store q topK
  refine ⟨?_, ?_, ?_, ?_⟩
  · simp only [QdrantStorage.search, List.length_map, hlen]
    exact min_le_left _ _
  · simp only [QdrantStorage.search, List.length_map, hlen]
    exact min_le_left _ _
  · simp only [QdrantStorage.search, List.Sorted]
    rw [List.pairwise_map]
    exact searchRanked_sorted m store q topK
  · intro hst
    simp only [QdrantStorage.search, List.length_map, hlen]
    omega

theorem search_at_most_topk_sorted_witness :
    1 ≤ 1 ∧
    ((QdrantStorage.search exMetric exStore (some [1]) 1).contexts.length ≤ 1 ∧
      (QdrantStorage.search exMetric exStore (some [1]) 1).sources.length ≤ 1 ∧
      (QdrantStorage.search exMetric exStore (some [1]) 1).scores.Sorted (· ≥ ·) ∧
      (exStore.length ≤ 1 →
        (QdrantStorage.search exMetric exStore (some [1]) 1).contexts.length =
          exStore.length)) :=
  ⟨by decide, search_at_most_topk_sorted exMetric exStore (some [1]) 1 (by decide)⟩

/-- C7 counterexample: the query pipeline performs no validation of the raw
generation response — with a response that has no `content` field at all, the
run is treated as success and returns the empty-string answer instead of
surfacing a `GenerationFailure`. -/
theorem query_returns_empty_answer_success :
    rag_query_pdf_ai exEmbedOk exMetric exLLMEmpty [] "what is X?" 5 =
      .ok ⟨"", [], 0⟩ := rfl

/-- C7 amended: the raw generation response is not validated; a missing
`content` field, or a first content item without `text`, silently defaults to
the empty string and is returned as a successful answer.  The only
malformed shape that fails is a present-but-empty `content` list, which
raises an index error, not a `GenerationFailure`. -/
theorem extract_answer_unvalidated (res : GenResponse)
    (h : res.content = none ∨ ∃ rest, res.content = some (⟨none⟩ :: rest)) :
    extractAnswer res = .ok "" ∧
      extractAnswer ⟨some []⟩ = .error .indexError := by
  constructor
  · rcases h with h | ⟨rest, h⟩ <;> simp [extractAnswer, h, stripStr]
  · rfl

theorem extract_answer_unvalidated_witness :
    ((⟨none⟩ : GenResponse).content = none ∨
      ∃ rest, (⟨none⟩ : GenResponse).content = some (⟨none⟩ :: rest)) ∧
    (extractAnswer ⟨none⟩ = .ok "" ∧
      extractAnswer ⟨some []⟩ = .error .indexError) :=
  ⟨Or.inl rfl, extract_answer_unvalidated ⟨none⟩ (Or.inl rfl)⟩

/-- C8: when the search step retrieves zero records the pipeline neither
errors nor short-circuits: the generation call is made with the empty context
block, and the returned result carries its answer with `num_contexts = 0` and
an empty sources sequence. -/
theorem empty_context_still_generates (f : String → Except Err EmbedResponse)
    (m : Option (List ℚ) → Option (List ℚ) → ℚ)
    (llm : String → String → Except Err GenResponse)
    (store : List IndexRecord) (question : String) (top_k : Nat)
    (er : EmbedResponse) (res : GenResponse) (ans : String)
    (hf : f question = .ok er)
    (hs : searchRanked m store er.embedding top_k = [])
    (hllm : llm "" question = .ok res)
    (hex : extractAnswer res = .ok ans) :
    rag_query_pdf_ai f m llm store question top_k = .ok ⟨ans, [], 0⟩ := by
  have hemb : embed_texts f [question] = .ok [er.embedding] := by
    simp [embed_texts, hf]
  rw [rag_query_pdf_ai, hemb]
  simp only [QdrantStorage.search, hs, List.map_nil]
  have hblock : String.intercalate "\n\n" ([] : List String) = "" := rfl
  rw [hblock, hllm]
  simp [hex]

theorem empty_context_still_generates_witness :
    (exEmbedOk "q" = .ok ⟨some [1]⟩ ∧
      searchRanked exMetric [] (some [1]) 5 = [] ∧
      exLLMHi "" "q" = .ok ⟨some [⟨some "hi"⟩]⟩ ∧
      extractAnswer ⟨some [⟨some "hi"⟩]⟩ = .ok "hi") ∧
    rag_query_pdf_ai exEmbedOk exMetric exLLMHi [] "q" 5 = .ok ⟨"hi", [], 0⟩ :=
  ⟨⟨rfl, rfl, rfl, rfl⟩,
    empty_context_still_generates exEmbedOk exMetric exLLMHi [] "q" 5
      ⟨some [1]⟩ ⟨some [⟨some "hi"⟩]⟩ "hi" rfl rfl rfl rfl⟩

lemma mkIds_length (u : String → String) (sid : String) (n : Nat) :
    (mkIds u sid n).length = n := by
  simp [mkIds]

lemma mkPayloads_length (sid : String) (chunks : List String) :
    (mkPayloads sid chunks).length = chunks.length := by
  simp [mkPayloads]

lemma ragIngestUpsert_ok (u : String → String)
    (f : String → Except Err EmbedResponse) (store : List IndexRecord)
    (chunks : List String) (sid : String) (s' : List IndexRecord)
    (n' : RAGUpsertResult)
    (h : ragIngestUpsert u f store ⟨chunks, sid⟩ = .ok (s', n')) :
    ∃ vecs, embed_texts f chunks = .ok vecs ∧
      s' = upsertRecords store
        (zipRecords (mkIds u sid chunks.length) vecs (mkPayloads sid chunks)) ∧
      n' = ⟨chunks.length⟩ := by
  rw [ragIngestUpsert] at h
  cases he : embed_texts f chunks with
  | error e => rw [he] at h; exact absurd h (by simp)
  | ok vecs =>
    rw [he] at h
    simp only [Except.ok.injEq, Prod.mk.injEq] at h
    exact ⟨vecs, rfl, h.1.symm, h.2.symm⟩

/-- C1: the id of chunk `i` is the pure deterministic function
`u (source_id ++ ":" ++ toString i)` of `(source_id, i)` alone (`u` being the
`uuid5` namespace hash), so re-ingesting the same source with the same
chunking produces exactly the same ids whatever the embedder returns, and the
second upsert overwrites in place: the stored ids after the re-ingest are
exactly the stored ids after the first ingest — no record is duplicated. -/
theorem ingest_ids_stable_on_reingest (u : String → String)
    (f1 f2 : String → Except Err EmbedResponse) (sid : String)
    (chunks : List String) (s s1 s2 : List IndexRecord)
    (n1 n2 : RAGUpsertResult)
    (h1 : ragIngestUpsert u f1 s ⟨chunks, sid⟩ = .ok (s1, n1))
    (h2 : ragIngestUpsert u f2 s1 ⟨chunks, sid⟩ = .ok (s2, n2)) :
    mkIds u sid chunks.length =
      (List.range chunks.length).map (fun i => u (sid ++ ":" ++ toString i)) ∧
    storeIds s2 = storeIds s1 ∧ n1 = n2 := by
  obtain ⟨vecs1, he1, hs1, hn1⟩ := ragIngestUpsert_ok u f1 s chunks sid s1 n1 h1
  obtain ⟨vecs2, he2, hs2, hn2⟩ := ragIngestUpsert_ok u f2 s1 chunks sid s2 n2 h2
  have hv1 : vecs1.length = chunks.length := embed_texts_ok_length f1 chunks vecs1 he1
  have hv2 : vecs2.length = chunks.length := embed_texts_ok_length f2 chunks vecs2 he2
  have hmap1 : (zipRecords (mkIds u sid chunks.length) vecs1
      (mkPayloads sid chunks)).map (fun r => r.id) = mkIds u sid chunks.length :=
    zipRecords_map_id _ _ _ (by rw [mkIds_length, hv1]) (by rw [mkIds_length, mkPayloads_length])
  have hmap2 : (zipRecords (mkIds u sid chunks.length) vecs2
      (mkPayloads sid chunks)).map (fun r => r.id) = mkIds u sid chunks.length :=
    zipRecords_map_id _ _ _ (by rw [mkIds_length, hv2]) (by rw [mkIds_length, mkPayloads_length])
  refine ⟨rfl, ?_, by rw [hn1, hn2]⟩
  rw [hs2]
  apply storeIds_upsertRecords_of_present
  intro r hr
  have hrid : r.id ∈ mkIds u sid chunks.length := by
    rw [← hmap2]
    exact List.mem_map_of_mem _ hr
  rw [← hmap1] at hrid
  obtain ⟨r', hr'mem, hr'id⟩ := List.mem_map.mp hrid
  have hpres := ids_mem_storeIds_upsertRecords _ s r' hr'mem
  rw [← hs1] at hpres
  rw [← hr'id]
  exact hpres

theorem ingest_ids_stable_on_reingest_witness :
    (ragIngestUpsert idHash exEmbedOk [] ⟨["c"], "s"⟩ = .ok ([exRecord], ⟨1⟩) ∧
      ragIngestUpsert idHash exEmbedOk [exRecord] ⟨["c"], "s"⟩ =
        .ok ([exRecord], ⟨1⟩)) ∧
    (mkIds idHash "s" (["c"] : List String).length =
        (List.range (["c"] : List String).length).map
          (fun i => idHash ("s" ++ ":" ++ toString i)) ∧
      storeIds [exRecord] = storeIds [exRecord] ∧
      (⟨1⟩ : RAGUpsertResult) = ⟨1⟩) :=
  ⟨⟨rfl, rfl⟩,
    ingest_ids_stable_on_reingest idHash exEmbedOk exEmbedOk "s" ["c"] []
      [exRecord] [exRecord] ⟨1⟩ ⟨1⟩ rfl rfl⟩

lemma zipRecords_getElem :
    ∀ (ids : List String) (vecs : List (Option (List ℚ))) (ps : List Payload)
      (i : Nat) (h1 : i < ids.length) (h2 : i < vecs.length)
      (h3 : i < ps.length) (h4 : i < (zipRecords ids vecs ps).length),
      (zipRecords ids vecs ps)[i] = ⟨ids[i], vecs[i], ps[i]⟩ := by
  intro ids
  induction ids with
  | nil => intro vecs ps i h1; exact absurd h1 (by simp)
  | cons x xs ih =>
    intro vecs ps i h1 h2 h3 h4
    cases vecs with
    | nil => exact absurd h2 (by simp)
    | cons v vs =>
      cases ps with
      | nil => exact absurd h3 (by simp)
      | cons p ps =>
        cases i with
        | zero => rfl
        | succ j =>
          have hj4 : j < (zipRecords xs vs ps).length := by
            simpa [zipRecords] using h4
          simpa [zipRecords] using
            ih vs ps j (by simpa using h1) (by simpa using h2)
              (by simpa using h3) hj4

/-- C9: within an ingest run chunk order is preserved end-to-end — the ids,
vectors and payloads all have one entry per chunk, and at every index `i` the
id is derived from `i`, the payload is `{source, chunks[i]}`, the vector is
the embedding of `chunks[i]`, and the record upserted at position `i` pairs
exactly these three. -/
theorem ingest_preserves_chunk_order (u : String → String)
    (f : String → Except Err EmbedResponse) (sid : String)
    (chunks : List String) (vecs : List (Option (List ℚ)))
    (h : embed_texts f chunks = .ok vecs) :
    (mkIds u sid chunks.length).length = chunks.length ∧
    vecs.length = chunks.length ∧
    (mkPayloads sid chunks).length = chunks.length ∧
    ∀ i (hi : i < chunks.length)
      (h1 : i < (mkIds u sid chunks.length).length) (h2 : i < vecs.length)
      (h3 : i < (mkPayloads sid chunks).length)
      (h4 : i <
        (zipRecords (mkIds u sid chunks.length) vecs (mkPayloads sid chunks)).length),
      (mkIds u sid chunks.length)[i] = u (sid ++ ":" ++ toString i) ∧
      (mkPayloads sid chunks)[i] = ⟨sid, chunks[i]⟩ ∧
      (∃ r, f chunks[i] = .ok r ∧ vecs[i] = r.embedding) ∧
      (zipRecords (mkIds u sid chunks.length) vecs (mkPayloads sid chunks))[i] =
        ⟨(mkIds u sid chunks.length)[i], vecs[i], (mkPayloads sid chunks)[i]⟩ := by
  have hv : vecs.length = chunks.length := embed_texts_ok_length f chunks vecs h
  refine ⟨mkIds_length u sid chunks.length, hv, mkPayloads_length sid chunks, ?_⟩
  intro i hi h1 h2 h3 h4
  refine ⟨?_, ?_, ?_, ?_⟩
  · simp [mkIds]
  · simp [mkPayloads]
  · exact embed_texts_ok_get f chunks vecs h i hi h2
  · exact zipRecords_getElem _ _ _ i h1 h2 h3 h4

theorem ingest_preserves_chunk_order_witness :
    embed_texts exEmbedOk ["c"] = .ok [some [1]] ∧
    ((mkIds idHash "s" (["c"] : List String).length).length =
        (["c"] : List String).length ∧
      ([some [1]] : List (Option (List ℚ))).length = (["c"] : List String).length ∧
      (mkPayloads "s" ["c"]).length = (["c"] : List String).length ∧
      ∀ i (hi : i < (["c"] : List String).length)
        (h1 : i < (mkIds idHash "s" (["c"] : List String).length).length)
        (h2 : i < ([some [1]] : List (Option (List ℚ))).length)
        (h3 : i < (mkPayloads "s" ["c"]).length)
        (h4 : i < (zipRecords (mkIds idHash "s" (["c"] : List String).length)
          [some [1]] (mkPayloads "s" ["c"])).length),
        (mkIds idHash "s" (["c"] : List String).length)[i] =
          idHash ("s" ++ ":" ++ toString i) ∧
        (mkPayloads "s" ["c"])[i] = ⟨"s", (["c"] : List String)[i]⟩ ∧
        (∃ r, exEmbedOk (["c"] : List String)[i] = .ok r ∧
          ([some [1]] : List (Option (List ℚ)))[i] = r.embedding) ∧
        (zipRecords (mkIds idHash "s" (["c"] : List String).length)
          [some [1]] (mkPayloads "s" ["c"]))[i] =
          ⟨(mkIds idHash "s" (["c"] : List String).length)[i],
            ([some [1]] : List (Option (List ℚ)))[i],
            (mkPayloads "s" ["c"])[i]⟩) :=
  ⟨rfl, ingest_preserves_chunk_order idHash exEmbedOk "s" ["c"] [some [1]] rfl⟩
